import Mathlib

/-!
Shallow embedding of the movie-recommendation demo (src/week2/data.js and
src/week2/script.js): the MovieLens parsers with their dense id-remap tables,
the bilinear predictor with its clamping, the training entry point, and the
content-based cosine-similarity recommender.  JavaScript numbers are modelled
as exact rationals (reals where a square root occurs); `parseInt`/`parseFloat`
returning `NaN` is modelled as `Option.none`.
-/

namespace Rec2

/-! ## String primitives modelling the JavaScript operations used by the code -/

/-- Model of JavaScript `String.prototype.split` with a one-character
separator, on the character list of the string.  `"".split(sep)` gives
`[""]`, and a trailing separator yields a trailing empty piece, matching JS. -/
def splitOnCharAux (sep : Char) : List Char → List Char → List (List Char)
  | [], cur => [cur.reverse]
  | c :: cs, cur =>
    if c = sep then cur.reverse :: splitOnCharAux sep cs []
    else splitOnCharAux sep cs (c :: cur)

def splitOnChar (sep : Char) (s : List Char) : List (List Char) :=
  splitOnCharAux sep s []

/-- Model of JavaScript `String.prototype.trim`: strip whitespace at both ends. -/
def trimChars (s : List Char) : List Char :=
  ((s.dropWhile Char.isWhitespace).reverse.dropWhile Char.isWhitespace).reverse

/-- Numeric value of a list of decimal digit characters. -/
def digitsVal (ds : List Char) : ℕ :=
  ds.foldl (fun acc c => 10 * acc + (c.toNat - 48)) 0

/-- Model of JavaScript `parseInt(s, 10)`: skip leading whitespace, read an
optional sign and then the longest prefix of decimal digits; `NaN` (here
`none`) when no digit is found. -/
def jsParseIntL (s : List Char) : Option Int :=
  let s1 := s.dropWhile Char.isWhitespace
  match s1 with
  | '-' :: rest =>
    let ds := rest.takeWhile Char.isDigit
    if ds.isEmpty then none else some (-(digitsVal ds : Int))
  | '+' :: rest =>
    let ds := rest.takeWhile Char.isDigit
    if ds.isEmpty then none else some (digitsVal ds : Int)
  | _ =>
    let ds := s1.takeWhile Char.isDigit
    if ds.isEmpty then none else some (digitsVal ds : Int)

/-- Model of JavaScript `parseFloat`: optional sign, integer digits, optional
fractional digits after a dot; `NaN` (here `none`) when no digit at all. -/
def jsParseFloatL (s : List Char) : Option ℚ :=
  let s1 := s.dropWhile Char.isWhitespace
  let signed : ℚ × List Char :=
    match s1 with
    | '-' :: rest => (-1, rest)
    | '+' :: rest => (1, rest)
    | _ => (1, s1)
  let intDs := signed.2.takeWhile Char.isDigit
  let s3 := signed.2.dropWhile Char.isDigit
  let fracDs : List Char :=
    match s3 with
    | '.' :: rest => rest.takeWhile Char.isDigit
    | _ => []
  if intDs.isEmpty ∧ fracDs.isEmpty then none
  else
    some (signed.1 * ((digitsVal intDs : ℚ) +
      (digitsVal fracDs : ℚ) / (10 : ℚ) ^ fracDs.length))

/-- The lines of the raw text, as JavaScript `text.split('\n')` produces them. -/
def linesOf (text : String) : List String :=
  (splitOnChar '\n' text.toList).map List.asString

/-- Model of a JavaScript object used as a dictionary: an assignment appends a
(key, value) pair and a later assignment to the same key wins on lookup. -/
def jsLookup {α β : Type} [DecidableEq α] (l : List (α × β)) (k : α) : Option β :=
  l.foldl (fun acc p => if p.1 = k then some p.2 else acc) none

/-! ## Data model (data.js) -/

/-- A movie as stored by `parseItemData`.  The JS object literal `{ id, title }`
has no `genres` property: that absent property is modelled by `genres = none`
(the content recommender reads `movie.genres` and `new Set(undefined)` is the
empty set).  `id` is `none` when `parseInt` produced `NaN`. -/
structure Movie where
  id : Option Int
  title : String
  genres : Option (List String)
deriving DecidableEq

/-- A raw rating row as first pushed by `parseRatingData` (before dense indices
are attached).  Rows whose numeric fields are `NaN` are skipped earlier, so the
fields here are plain numbers. -/
structure RawRating where
  userId : Int
  movieId : Int
  rating : ℚ
deriving DecidableEq

/-- A rating with the dense indices attached (the final shape in `ratings`). -/
structure Rating where
  userId : Int
  movieId : Int
  rating : ℚ
  userIndex : ℕ
  movieIndex : ℕ
deriving DecidableEq

/-- One iteration of the `parseItemData` loop: skip the line when its trimmed
form is empty or it has fewer than two pipe-separated fields, otherwise parse
the id and title. -/
def itemRow (line : String) : Option (Option Int × String) :=
  if (trimChars line.toList).isEmpty then none
  else
    let fields := splitOnChar '|' line.toList
    if fields.length < 2 then none
    else some (jsParseIntL (fields.headD []), (fields.getD 1 []).asString)

/-- The state threaded by the `parseItemData` loop: the `movies` array and the
`movieIndexById` dictionary (as an assignment list, later writes win). -/
def itemStep (st : List Movie × List (Option Int × ℕ)) (line : String) :
    List Movie × List (Option Int × ℕ) :=
  match itemRow line with
  | none => st
  | some r => (st.1 ++ [⟨r.1, r.2, none⟩], st.2 ++ [(r.1, st.1.length)])

/-- Function `parseItemData` from data.js: returns the `movies` array and the
`movieIndexById` remap.  `numMovies` is the length of the first component. -/
def parseItemData (text : String) : List Movie × List (Option Int × ℕ) :=
  (linesOf text).foldl itemStep ([], [])

/-- One iteration of the first `parseRatingData` loop: skip blank lines, lines
with fewer than three tab-separated fields, and lines where any of the three
numeric fields parses to `NaN`. -/
def ratingRow (line : String) : Option RawRating :=
  if (trimChars line.toList).isEmpty then none
  else
    let fields := splitOnChar '\t' line.toList
    if fields.length < 3 then none
    else
      match jsParseIntL (fields.getD 0 []), jsParseIntL (fields.getD 1 []),
          jsParseFloatL (fields.getD 2 []) with
      | some u, some m, some r => some ⟨u, m, r⟩
      | _, _, _ => none

def ratingStep (acc : List RawRating) (line : String) : List RawRating :=
  match ratingRow line with
  | none => acc
  | some r => acc ++ [r]

/-- The raw `ratings` array after the first `parseRatingData` loop. -/
def rawRatings (text : String) : List RawRating :=
  (linesOf text).foldl ratingStep []

/-- Ascending insertion used to model the JS numeric sort of the user ids. -/
def insertAsc (x : Int) : List Int → List Int
  | [] => [x]
  | y :: ys => if x ≤ y then x :: y :: ys else y :: insertAsc x ys

def sortAsc (l : List Int) : List Int := l.foldr insertAsc []

/-- Pair each element with its position, starting at `n`. -/
def withIdx {α : Type} : List α → ℕ → List (α × ℕ)
  | [], _ => []
  | x :: xs, n => (x, n) :: withIdx xs (n + 1)

/-- Result of `parseRatingData`: the final `ratings` array (dense indices
attached, rows whose movie id misses the remap filtered out), the sorted
distinct `userIds`, and the `userIndexById` remap. -/
structure RatingTable where
  ratings : List Rating
  userIds : List Int
  userIndexById : List (Int × ℕ)

/-- Function `parseRatingData` from data.js.  `Array.from(userIdSet).sort((a,b) => a-b)`
is the ascending sorted list of the distinct user ids seen in valid rows;
dense user indices are positions in that list.  Each raw row is then given its
dense indices and kept only when both lookups are defined (the user lookup
always is; the movie lookup fails for movie ids absent from `movieIndexById`). -/
def parseRatingData (text : String) (movieIndexById : List (Option Int × ℕ)) :
    RatingTable :=
  let raw := rawRatings text
  let uids := sortAsc (raw.map (fun r => r.userId)).dedup
  let uIdx := withIdx uids 0
  let rts := raw.filterMap (fun r =>
    match jsLookup uIdx r.userId, jsLookup movieIndexById (some r.movieId) with
    | some ui, some mi => some ⟨r.userId, r.movieId, r.rating, ui, mi⟩
    | _, _ => none)
  ⟨rts, uids, uIdx⟩

/-! ## Matrix-factorisation model and predictor (script.js, first part) -/

/-- Parameters of the bilinear model built by `createModel`: per-entity latent
vectors of dimension `d` and per-entity scalar biases.  The training engine
(TensorFlow.js) is out of scope, so the parameter tables are abstract
functions from dense indices; arithmetic is exact rational arithmetic. -/
structure ModelParams where
  d : ℕ
  userEmb : ℕ → Fin d → ℚ
  movieEmb : ℕ → Fin d → ℚ
  userBias : ℕ → ℚ
  movieBias : ℕ → ℚ

/-- One forward pass of the model: dot product of the two latent vectors plus
both bias terms (`dot-interaction` followed by the two `add` layers). -/
def rawPredict (p : ModelParams) (ui mi : ℕ) : ℚ :=
  (Finset.univ.sum fun k => p.userEmb ui k * p.movieEmb mi k)
    + p.userBias ui + p.movieBias mi

/-- Model of `Math.min(5, Math.max(1, rawRating))` from `predictRating`. -/
def clampRating (r : ℚ) : ℚ := min 5 (max 1 r)

/-- The global state shared between data.js and script.js that the predictor
and trainer read: the parsed tables, the remaps, the current model and the
readiness flag. -/
structure AppState where
  movies : List Movie
  ratings : List Rating
  userIds : List Int
  userIndexById : List (Int × ℕ)
  movieIndexById : List (Option Int × ℕ)
  model : Option ModelParams
  isModelReady : Bool

/-- The observable outcome of one `predictRating` call: the early returns with
their messages, or the clamped prediction displayed to the user. -/
inductive PredictResult where
  | notReady
  | badInput
  | notFound
  | prediction (r : ℚ)
deriving DecidableEq

/-- Function `predictRating` from script.js.  The checks happen in source order:
`!model || !isModelReady`, then the `NaN` checks on the two parsed dropdown
values, then the two remap lookups, and finally the forward pass and clamp. -/
def predictRating (st : AppState) (userVal movieVal : String) : PredictResult :=
  match st.model with
  | none => .notReady
  | some p =>
    if st.isModelReady = false then .notReady
    else
      match jsParseIntL userVal.toList, jsParseIntL movieVal.toList with
      | some uid, some mid =>
        match jsLookup st.userIndexById uid, jsLookup st.movieIndexById (some mid) with
        | some ui, some mi => .prediction (clampRating (rawPredict p ui mi))
        | _, _ => .notFound
      | _, _ => .badInput

/-- The single error kind `trainModel` can throw: the empty-training-set error. -/
inductive TrainError where
  | trainError
deriving DecidableEq

/-- The state at the start of `trainModel`, after `predictBtn.disabled = true`
and `isModelReady = false`: this is the state every in-flight training run
exposes to a concurrent `predictRating` call. -/
def trainBegin (st : AppState) : AppState := { st with isModelReady := false }

/-- Function `trainModel` from script.js.  It first clears the ready flag, throws when
`ratings` is empty, otherwise replaces the model with a freshly created one
(`init`), fits it (the opaque TensorFlow.js training loop, modelled by the
function `fit`), and only then sets the ready flag. -/
def trainModel (st : AppState) (init : ModelParams)
    (fit : ModelParams → ModelParams) : Except TrainError AppState :=
  let st0 := trainBegin st
  if st0.ratings.length = 0 then .error .trainError
  else
    let st1 := { st0 with model := some init }
    .ok { st1 with model := some (fit init), isModelReady := true }

/-- The state after `loadData` has parsed both texts (the fetch layer is out of
scope): movies and the movie remap from `parseItemData`, then the rating table
from `parseRatingData`; the model fields keep their initial values. -/
def loadState (itemText ratingText : String) : AppState :=
  let pm := parseItemData itemText
  let rt := parseRatingData ratingText pm.2
  ⟨pm.1, rt.ratings, rt.userIds, rt.userIndexById, pm.2, none, false⟩

/-! ## Content-based recommender (script.js, second part) -/

/-- Model of `new Set(movie.genres)`: the set of genre tags; `new Set(undefined)` (the
property is absent) is the empty set, and duplicates collapse. -/
def genreFinset (m : Movie) : Finset String := (m.genres.getD []).toFinset

/-- Model of `[...likedGenres].filter(genre => candidateGenres.has(genre)).length`:
the intersection size of the two genre sets. -/
def interCard (a b : Finset String) : ℕ := (a.filter (fun g => g ∈ b)).card

/-- The cosine-similarity score the recommender computes for one candidate:
`denom = Math.sqrt(likedGenres.size * candidateGenres.size)` and
`score = denom > 0 ? intersectionSize / denom : 0`.  JavaScript floats are
modelled as reals. -/
noncomputable def simScore (a b : Finset String) : ℝ :=
  if 0 < Real.sqrt ((a.card : ℝ) * (b.card : ℝ)) then
    (interCard a b : ℝ) / Real.sqrt ((a.card : ℝ) * (b.card : ℝ))
  else 0

/-- A scored candidate (`{ ...candidate, score }`): the candidate movie
together with the two integers that determine its score exactly — the
intersection size and the product of the two genre-set sizes. -/
structure Scored where
  movie : Movie
  inter : ℕ
  nProd : ℕ
deriving DecidableEq

/-- The real-valued `score` field of a scored candidate. -/
noncomputable def scoreR (s : Scored) : ℝ :=
  if 0 < Real.sqrt (s.nProd : ℝ) then (s.inter : ℝ) / Real.sqrt (s.nProd : ℝ) else 0

/-- Score one candidate against the reference movie. -/
def scoreOf (liked cand : Movie) : Scored :=
  let a := genreFinset liked
  let b := genreFinset cand
  ⟨cand, interCard a b, a.card * b.card⟩

/-- Decidable comparison equivalent to `scoreR s ≤ scoreR t` (proved below):
squares both sides to avoid the square roots. -/
def keyLe (s t : Scored) : Bool :=
  if s.nProd = 0 then true
  else if t.nProd = 0 then s.inter = 0
  else s.inter ^ 2 * t.nProd ≤ t.inter ^ 2 * s.nProd

/-- Both comparisons hold: the two candidates have equal scores (a tie for the
sort comparator `(a, b) => b.score - a.score`). -/
def keyEquiv (s t : Scored) : Bool := keyLe s t && keyLe t s

/-- Insert into a descending-sorted list, after every element with a greater
or equal score: this is where a stable sort sends a new element. -/
def insertDesc (x : Scored) : List Scored → List Scored
  | [] => [x]
  | y :: ys => if keyLe x y then y :: insertDesc x ys else x :: y :: ys

/-- Model of `scoredMovies.sort((a, b) => b.score - a.score)`: JavaScript `sort` is
stable and the comparator orders by descending score, which determines the
output uniquely; a left-to-right stable insertion computes it. -/
def sortDesc (l : List Scored) : List Scored :=
  l.foldl (fun acc x => insertDesc x acc) []

/-- JavaScript `===` on the two id values, where a `NaN` id (`none`) is equal
to nothing, itself included. -/
def jsStrictEq (a b : Option Int) : Bool :=
  match a, b with
  | some x, some y => x = y
  | _, _ => false

/-- Model of `movies.filter(movie => movie.id !== likedMovie.id)` followed by the
scoring map: the scored candidate pool in its original order. -/
def scoredCandidates (movies : List Movie) (liked : Movie) : List Scored :=
  (movies.filter (fun m => ¬ jsStrictEq m.id liked.id)).map (scoreOf liked)

/-- The observable outcome of `getRecommendations`: the early error returns,
or the reference movie with the rendered recommendation list. -/
inductive RecResult where
  | badInput
  | notFound
  | ok (liked : Movie) (recs : List Scored)
deriving DecidableEq

/-- Function `getRecommendations` from script.js: parse the selected value (`NaN` is an
error), find the movie with that id (`===`, first match), drop it from the
candidate pool, score every candidate, sort descending by score (stable) and
keep the top two. -/
def getRecommendations (movies : List Movie) (selVal : String) : RecResult :=
  match jsParseIntL selVal.toList with
  | none => .badInput
  | some mid =>
    match movies.find? (fun m => jsStrictEq m.id (some mid)) with
    | none => .notFound
    | some liked =>
      .ok liked ((sortDesc (scoredCandidates movies liked)).take 2)

/-! ## Spec-side definition and concrete fixtures -/

/-- The similarity formula as the specification words it (§4.5): `similarity =
|intersection(genres_a, genres_b)| / sqrt(|genres_a| * |genres_b|), defined as
0 when either genre set is empty`.  Used only to compare against `simScore`,
which is translated from the code. -/
noncomputable def specSimilarity (a b : Finset String) : ℝ :=
  if a = ∅ ∨ b = ∅ then 0
  else ((a ∩ b).card : ℝ) / Real.sqrt ((a.card : ℝ) * (b.card : ℝ))

/-- A trivial parameter set (latent dimension 0, all biases 0). -/
def exParams : ModelParams :=
  ⟨0, fun _ _ => 0, fun _ _ => 0, fun _ => 0, fun _ => 0⟩

/-- A state in which training has completed and both remaps resolve. -/
def exReadyState : AppState :=
  ⟨[], [], [1], [(1, 0)], [(some 2, 0)], some exParams, true⟩

/-- The page-load state: no model, not ready. -/
def exInitState : AppState := ⟨[], [], [], [], [], none, false⟩

/-- Three hand-made movies with genre tags, for exercising the recommender. -/
def exMovies : List Movie :=
  [⟨some 1, "A", some ["x", "y"]⟩, ⟨some 2, "B", some ["x"]⟩,
   ⟨some 3, "C", some ["z"]⟩]

def exLiked : Movie := ⟨some 1, "A", some ["x", "y"]⟩

def exRecs : List Scored :=
  [⟨⟨some 2, "B", some ["x"]⟩, 1, 2⟩, ⟨⟨some 3, "C", some ["z"]⟩, 0, 2⟩]

/-! ## Lemmas about the predictor -/

lemma clampRating_mem (x : ℚ) : 1 ≤ clampRating x ∧ clampRating x ≤ 5 := by
  unfold clampRating
  exact ⟨le_min (by norm_num) (le_max_left 1 x), min_le_left 5 _⟩

/-- Claim C1: whenever `predictRating` returns a numeric rating (so the remap
lookups resolved and the model was ready), that rating lies in the closed
interval `[1, 5]`, whatever the raw bilinear output was: the clamp
`Math.min(5, Math.max(1, rawRating))` forces it. -/
theorem predictRating_in_range (st : AppState) (u m : String) (r : ℚ)
    (h : predictRating st u m = .prediction r) : 1 ≤ r ∧ r ≤ 5 := by
  unfold predictRating at h
  split at h
  · exact absurd h (by simp)
  · split at h
    · exact absurd h (by simp)
    · split at h
      · split at h
        · rw [PredictResult.prediction.injEq] at h
          rw [← h]
          exact clampRating_mem _
        · exact absurd h (by simp)
      · exact absurd h (by simp)

/-- Witness for C1 at a concrete ready state. -/
theorem predictRating_in_range_witness :
    predictRating exReadyState "1" "2" = .prediction 1 ∧ 1 ≤ (1 : ℚ) ∧ (1 : ℚ) ≤ 5 := by
  have hr : rawPredict exParams 0 0 = 0 := by simp [rawPredict, exParams]
  have hc : clampRating (0 : ℚ) = 1 := by
    unfold clampRating
    rw [max_eq_left (by norm_num), min_eq_right (by norm_num)]
  have h : predictRating exReadyState "1" "2" = .prediction 1 := by
    show PredictResult.prediction (clampRating (rawPredict exParams 0 0)) = .prediction 1
    rw [hr, hc]
  exact ⟨h, predictRating_in_range exReadyState "1" "2" 1 h⟩

/-- Claim C4: before the trainer has reported readiness — the flag that only the
last line of `trainModel` sets, so in particular while a training run is in
flight — `predictRating` takes the `NotReady` early return and never reaches
the code that produces a numeric rating. -/
theorem predictRating_notReady (st : AppState) (u m : String)
    (h : st.isModelReady = false) : predictRating st u m = .notReady := by
  unfold predictRating
  rcases hm : st.model with _ | p
  · rfl
  · simp [h]

/-- Witness for C4 at the page-load state. -/
theorem predictRating_notReady_witness :
    exInitState.isModelReady = false ∧
      predictRating exInitState "1" "1" = PredictResult.notReady :=
  ⟨rfl, predictRating_notReady exInitState "1" "1" rfl⟩

/-! ## Lemmas about the similarity score -/

lemma interCard_eq (a b : Finset String) : interCard a b = (a ∩ b).card := by
  unfold interCard
  rw [Finset.filter_mem_eq_inter]

lemma interCard_comm (a b : Finset String) : interCard a b = interCard b a := by
  rw [interCard_eq, interCard_eq, Finset.inter_comm]

lemma simScore_empty (a b : Finset String) (h : a = ∅ ∨ b = ∅) :
    simScore a b = 0 := by
  unfold simScore
  have hz : (a.card : ℝ) * (b.card : ℝ) = 0 := by
    rcases h with h | h <;> subst h <;> simp
  rw [hz, Real.sqrt_zero, if_neg (lt_irrefl 0)]

/-- Claim C2: the computed similarity equals the spec's formula
`|intersection| / sqrt(|a| * |b|)` with the 0-on-empty convention, and it is 0
whenever either genre set is empty; the `denom > 0` guard means no division by
zero (hence no `NaN`) ever occurs. -/
theorem simScore_eq_spec (a b : Finset String) :
    simScore a b = specSimilarity a b ∧ ((a = ∅ ∨ b = ∅) → simScore a b = 0) := by
  refine ⟨?_, simScore_empty a b⟩
  by_cases h : a = ∅ ∨ b = ∅
  · rw [simScore_empty a b h]
    unfold specSimilarity
    rw [if_pos h]
  · push_neg at h
    obtain ⟨ha, hb⟩ := h
    have ha2 : 0 < a.card := Finset.card_pos.mpr (Finset.nonempty_iff_ne_empty.mpr ha)
    have hb2 : 0 < b.card := Finset.card_pos.mpr (Finset.nonempty_iff_ne_empty.mpr hb)
    have hpos : (0 : ℝ) < (a.card : ℝ) * (b.card : ℝ) :=
      mul_pos (by exact_mod_cast ha2) (by exact_mod_cast hb2)
    unfold simScore specSimilarity
    rw [if_pos (Real.sqrt_pos.mpr hpos), if_neg (not_or.mpr ⟨ha, hb⟩), interCard_eq]

/-- Witness for C2: the similarity is 0 when the first genre set is empty. -/
theorem simScore_eq_spec_witness :
    simScore (∅ : Finset String) {"x"} = 0 :=
  (simScore_eq_spec ∅ {"x"}).2 (Or.inl rfl)

/-- Claim C7: the similarity score is symmetric in its two genre sets. -/
theorem simScore_symm (a b : Finset String) : simScore a b = simScore b a := by
  unfold simScore
  rw [interCard_comm, mul_comm]

/-! ## Closed forms of the two parser loops -/

lemma foldl_ratingStep (ls : List String) (acc : List RawRating) :
    ls.foldl ratingStep acc = acc ++ ls.filterMap ratingRow := by
  induction ls generalizing acc with
  | nil => simp
  | cons l ls ih =>
    rw [List.foldl_cons, ih, List.filterMap_cons]
    unfold ratingStep
    cases h : ratingRow l <;> simp [h]

lemma rawRatings_eq (text : String) :
    rawRatings text = (linesOf text).filterMap ratingRow := by
  unfold rawRatings
  rw [foldl_ratingStep]
  rfl

lemma withIdx_cons {α : Type} (x : α) (xs : List α) (n : ℕ) :
    withIdx (x :: xs) n = (x, n) :: withIdx xs (n + 1) := rfl

lemma foldl_itemStep (ls : List String) (ms : List Movie)
    (rm : List (Option Int × ℕ)) :
    ls.foldl itemStep (ms, rm) =
      (ms ++ (ls.filterMap itemRow).map (fun p => ⟨p.1, p.2, none⟩),
       rm ++ withIdx ((ls.filterMap itemRow).map Prod.fst) ms.length) := by
  induction ls generalizing ms rm with
  | nil => simp [withIdx]
  | cons l ls ih =>
    rw [List.foldl_cons, List.filterMap_cons]
    cases h : itemRow l with
    | none =>
      have hstep : itemStep (ms, rm) l = (ms, rm) := by
        unfold itemStep
        rw [h]
      simp [hstep, h, ih]
    | some r =>
      have hstep : itemStep (ms, rm) l =
          (ms ++ [⟨r.1, r.2, none⟩], rm ++ [(r.1, ms.length)]) := by
        unfold itemStep
        rw [h]
      simp [hstep, h, ih, withIdx_cons, List.length_append]

lemma parseItemData_eq (text : String) :
    parseItemData text =
      (((linesOf text).filterMap itemRow).map (fun p => ⟨p.1, p.2, none⟩),
       withIdx (((linesOf text).filterMap itemRow).map Prod.fst) 0) := by
  unfold parseItemData
  rw [foldl_itemStep]
  simp

/-- Claim C9, counterexample: the line `"x|T"` has a malformed numeric id field
(`parseInt` gives `NaN`), yet `parseItemData` still produces an entry for it
(with a `NaN` id), so the item parser does not skip rows with malformed
numeric fields as the claim states. -/
theorem parseItemData_keeps_nan_id_row :
    jsParseIntL ("x".toList) = none ∧
      (parseItemData "x|T").1 = [⟨none, "T", none⟩] := by
  exact ⟨by decide, by decide⟩

/-- Claim C9, amended: both parsers are total (no row can raise an error) and
process exactly the rows their row-validators accept, in order:
`parseRatingData` silently skips rows that are blank, have fewer than three
columns, or have a malformed numeric field, while `parseItemData` silently
skips only blank rows and rows with fewer than two columns — a row whose id
field is malformed still yields a movie entry, with a `NaN` id. -/
theorem parsers_skip_invalid_rows (text : String) :
    rawRatings text = (linesOf text).filterMap ratingRow ∧
      (parseItemData text).1 =
        ((linesOf text).filterMap itemRow).map (fun p => ⟨p.1, p.2, none⟩) := by
  refine ⟨rawRatings_eq text, ?_⟩
  rw [parseItemData_eq]

/-- Claim C8: when the ratings text has no valid rating row, the loaded rating
collection is empty and `trainModel` throws the empty-training-set error. -/
theorem trainModel_empty_fails (itemText ratingText : String)
    (init : ModelParams) (fit : ModelParams → ModelParams)
    (h : (linesOf ratingText).filterMap ratingRow = []) :
    trainModel (loadState itemText ratingText) init fit = .error .trainError := by
  have hraw : rawRatings ratingText = [] := by rw [rawRatings_eq, h]
  unfold trainModel loadState trainBegin parseRatingData
  rw [hraw]
  rfl

/-- Witness for C8: an all-invalid ratings text. -/
theorem trainModel_empty_fails_witness :
    (linesOf "bad row").filterMap ratingRow = [] ∧
      trainModel (loadState "1|A" "bad row") exParams id = .error .trainError :=
  ⟨by decide, trainModel_empty_fails "1|A" "bad row" exParams id (by decide)⟩

/-! ## Last-write-wins lookup over the remap assignment lists -/

lemma jsLookup_foldl_acc {α β : Type} [DecidableEq α] (l : List (α × β)) (k : α)
    (acc : Option β) :
    l.foldl (fun a q => if q.1 = k then some q.2 else a) acc =
      match jsLookup l k with
      | some v => some v
      | none => acc := by
  induction l generalizing acc with
  | nil => rfl
  | cons q l ih =>
    show l.foldl (fun a q => if q.1 = k then some q.2 else a)
        (if q.1 = k then some q.2 else acc) = _
    rw [ih]
    have hc : jsLookup (q :: l) k =
        match jsLookup l k with
        | some v => some v
        | none => if q.1 = k then some q.2 else none := by
      show l.foldl (fun a q => if q.1 = k then some q.2 else a)
          (if q.1 = k then some q.2 else none) = _
      rw [ih]
    rw [hc]
    cases jsLookup l k with
    | none => by_cases hq : q.1 = k <;> simp [hq]
    | some v => rfl

lemma jsLookup_cons {α β : Type} [DecidableEq α] (q : α × β) (l : List (α × β))
    (k : α) :
    jsLookup (q :: l) k =
      match jsLookup l k with
      | some v => some v
      | none => if q.1 = k then some q.2 else none := by
  show l.foldl (fun a q => if q.1 = k then some q.2 else a)
      (if q.1 = k then some q.2 else none) = _
  rw [jsLookup_foldl_acc]

lemma jsLookup_withIdx_some {ids : List (Option Int)} {n j : ℕ} {k : Option Int}
    (h : jsLookup (withIdx ids n) k = some j) :
    ∃ i, ∃ hi : i < ids.length, ids.get ⟨i, hi⟩ = k ∧ j = n + i := by
  induction ids generalizing n with
  | nil => cases h
  | cons x xs ih =>
    rw [withIdx_cons, jsLookup_cons] at h
    cases hl : jsLookup (withIdx xs (n + 1)) k with
    | some v =>
      rw [hl] at h
      have hv : v = j := by
        cases h
        rfl
      subst hv
      obtain ⟨i, hi, hget, hj⟩ := ih hl
      refine ⟨i + 1, Nat.succ_lt_succ hi, hget, ?_⟩
      omega
    | none =>
      rw [hl] at h
      by_cases hx : x = k
      · rw [if_pos hx] at h
        have hj : n = j := by
          cases h
          rfl
        refine ⟨0, Nat.succ_pos xs.length, hx, ?_⟩
        omega
      · rw [if_neg hx] at h
        cases h

lemma jsLookup_withIdx_of_not_mem {ids : List (Option Int)} {k : Option Int}
    (hk : k ∉ ids) (n : ℕ) : jsLookup (withIdx ids n) k = none := by
  cases h : jsLookup (withIdx ids n) k with
  | none => rfl
  | some j =>
    obtain ⟨i, hi, hget, -⟩ := jsLookup_withIdx_some h
    exact absurd (hget ▸ List.get_mem ids i hi) hk

lemma jsLookup_withIdx_get {ids : List (Option Int)} (hnd : ids.Nodup) (n i : ℕ)
    (hi : i < ids.length) :
    jsLookup (withIdx ids n) (ids.get ⟨i, hi⟩) = some (n + i) := by
  induction ids generalizing n i with
  | nil => cases hi
  | cons x xs ih =>
    rw [withIdx_cons, jsLookup_cons]
    cases i with
    | zero =>
      have hx : x ∉ xs := (List.nodup_cons.mp hnd).1
      have hnone : jsLookup (withIdx xs (n + 1)) ((x :: xs).get ⟨0, hi⟩) = none :=
        jsLookup_withIdx_of_not_mem hx (n + 1)
      rw [hnone]
      simp
    | succ i =>
      have hi2 : i < xs.length := Nat.lt_of_succ_lt_succ hi
      have hrec : jsLookup (withIdx xs (n + 1)) (xs.get ⟨i, hi2⟩) =
          some (n + 1 + i) := ih (List.nodup_cons.mp hnd).2 (n + 1) i hi2
      have hget : (x :: xs).get ⟨i + 1, hi⟩ = xs.get ⟨i, hi2⟩ := rfl
      rw [hget, hrec]
      have : n + 1 + i = n + (i + 1) := by omega
      rw [this]

/-- Claim C3, counterexample: on the item text `"1|A\n1|B"` — two well-formed
rows carrying the same movie id — `parseItemData` stores two movies
(`numMovies = 2`) but the second assignment to `movieIndexById[1]` overwrites
the first, so dense index 0 is assigned to no sparse id and the remap is not a
bijection onto `[0, numMovies)`. -/
theorem movie_remap_not_bijective :
    ¬ (∀ j, j < (parseItemData "1|A\n1|B").1.length →
        ∃! k : Option Int, jsLookup (parseItemData "1|A\n1|B").2 k = some j) := by
  intro hbij
  obtain ⟨k, hk, -⟩ := hbij 0 (by decide)
  have h2 : (parseItemData "1|A\n1|B").2 = [(some 1, 0), (some 1, 1)] := by decide
  rw [h2] at hk
  by_cases hk1 : k = some 1
  · subst hk1
    simp [jsLookup] at hk
  · have hnone : jsLookup [((some 1 : Option Int), (0 : ℕ)), (some 1, 1)] k = none := by
      simp [jsLookup, Ne.symm hk1]
    rw [hnone] at hk
    cases hk

/-- Claim C3, amended: when the movie ids of the valid item rows are pairwise
distinct (as they are in the MovieLens item file; the unamended claim fails
when an id repeats), the remap built by `parseItemData` is a bijection onto
`[0, numMovies)`: every dense index below `numMovies` is assigned to exactly
one sparse id. -/
theorem movie_remap_bijection (text : String)
    (hnd : (((linesOf text).filterMap itemRow).map Prod.fst).Nodup) :
    ∀ j, j < (parseItemData text).1.length →
      ∃! k : Option Int, jsLookup (parseItemData text).2 k = some j := by
  intro j hj
  rw [parseItemData_eq] at hj ⊢
  have hj2 : j < (((linesOf text).filterMap itemRow).map Prod.fst).length := by
    simpa using hj
  refine ⟨(((linesOf text).filterMap itemRow).map Prod.fst).get ⟨j, hj2⟩, ?_, ?_⟩
  · have := jsLookup_withIdx_get hnd 0 j hj2
    simpa using this
  · intro k hk
    obtain ⟨i, hi, hget, hj3⟩ := jsLookup_withIdx_some hk
    have hij : i = j := by omega
    subst hij
    exact hget.symm

/-- Witness for C3 (amended) on a two-row text with distinct ids. -/
theorem movie_remap_bijection_witness :
    ∃! k : Option Int, jsLookup (parseItemData "1|A\n2|B").2 k = some 0 :=
  movie_remap_bijection "1|A\n2|B" (by decide) 0 (by decide)

/-! ## The comparator, the stable sort, and the recommender -/

lemma scoreR_of_nProd_zero (s : Scored) (h : s.nProd = 0) : scoreR s = 0 := by
  unfold scoreR
  rw [h]
  simp

lemma scoreR_of_nProd_pos (s : Scored) (h : 0 < s.nProd) :
    scoreR s = (s.inter : ℝ) / Real.sqrt (s.nProd : ℝ) := by
  unfold scoreR
  rw [if_pos (Real.sqrt_pos.mpr (by exact_mod_cast h))]

lemma scoreR_nonneg (s : Scored) : 0 ≤ scoreR s := by
  unfold scoreR
  split
  · exact div_nonneg (Nat.cast_nonneg _) (Real.sqrt_nonneg _)
  · exact le_refl 0

/-- The Boolean comparison `keyLe` decides exactly the real comparison of the
two scores `inter / sqrt(nProd)` that the JS comparator `b.score - a.score`
performs. -/
lemma keyLe_iff (s t : Scored) : keyLe s t = true ↔ scoreR s ≤ scoreR t := by
  unfold keyLe
  by_cases hs : s.nProd = 0
  · rw [if_pos hs]
    simp [scoreR_of_nProd_zero s hs, scoreR_nonneg t]
  · rw [if_neg hs]
    have hs2 : 0 < s.nProd := Nat.pos_of_ne_zero hs
    have hss : (0 : ℝ) < Real.sqrt (s.nProd : ℝ) :=
      Real.sqrt_pos.mpr (by exact_mod_cast hs2)
    by_cases ht : t.nProd = 0
    · rw [if_pos ht, scoreR_of_nProd_zero t ht, scoreR_of_nProd_pos s hs2]
      simp only [decide_eq_true_eq]
      constructor
      · intro h0
        rw [h0]
        simp
      · intro hle
        have h1 : (s.inter : ℝ) / Real.sqrt (s.nProd : ℝ) = 0 :=
          le_antisymm hle (div_nonneg (Nat.cast_nonneg _) (Real.sqrt_nonneg _))
        have h2 : (s.inter : ℝ) = 0 := by
          rcases div_eq_zero_iff.mp h1 with h2 | h2
          · exact h2
          · exact absurd h2 (ne_of_gt hss)
        exact_mod_cast h2
    · rw [if_neg ht]
      have ht2 : 0 < t.nProd := Nat.pos_of_ne_zero ht
      have hts : (0 : ℝ) < Real.sqrt (t.nProd : ℝ) :=
        Real.sqrt_pos.mpr (by exact_mod_cast ht2)
      rw [scoreR_of_nProd_pos s hs2, scoreR_of_nProd_pos t ht2]
      simp only [decide_eq_true_eq]
      rw [div_le_div_iff₀ hss hts]
      rw [mul_self_le_mul_self_iff
        (mul_nonneg (Nat.cast_nonneg s.inter) (Real.sqrt_nonneg _))
        (mul_nonneg (Nat.cast_nonneg t.inter) (Real.sqrt_nonneg _))]
      have e1 : ((s.inter : ℝ) * Real.sqrt (t.nProd : ℝ)) *
          ((s.inter : ℝ) * Real.sqrt (t.nProd : ℝ)) =
          ((s.inter : ℝ) * (s.inter : ℝ)) * (t.nProd : ℝ) := by
        rw [mul_mul_mul_comm, Real.mul_self_sqrt (Nat.cast_nonneg _)]
      have e2 : ((t.inter : ℝ) * Real.sqrt (s.nProd : ℝ)) *
          ((t.inter : ℝ) * Real.sqrt (s.nProd : ℝ)) =
          ((t.inter : ℝ) * (t.inter : ℝ)) * (s.nProd : ℝ) := by
        rw [mul_mul_mul_comm, Real.mul_self_sqrt (Nat.cast_nonneg _)]
      rw [e1, e2]
      constructor
      · intro h
        have h2 : s.inter * s.inter * t.nProd ≤ t.inter * t.inter * s.nProd := by
          calc s.inter * s.inter * t.nProd = s.inter ^ 2 * t.nProd := by ring
            _ ≤ t.inter ^ 2 * s.nProd := h
            _ = t.inter * t.inter * s.nProd := by ring
        exact_mod_cast h2
      · intro h
        have h2 : s.inter * s.inter * t.nProd ≤ t.inter * t.inter * s.nProd := by
          exact_mod_cast h
        calc s.inter ^ 2 * t.nProd = s.inter * s.inter * t.nProd := by ring
          _ ≤ t.inter * t.inter * s.nProd := h2
          _ = t.inter ^ 2 * s.nProd := by ring

lemma keyEquiv_iff (s t : Scored) : keyEquiv s t = true ↔ scoreR s = scoreR t := by
  unfold keyEquiv
  rw [Bool.and_eq_true, keyLe_iff, keyLe_iff]
  exact ⟨fun h => le_antisymm h.1 h.2, fun h => ⟨le_of_eq h, ge_of_eq h⟩⟩

lemma not_keyLe_lt {x y : Scored} (h : ¬ keyLe x y = true) :
    scoreR y < scoreR x :=
  lt_of_not_le (fun hle => h ((keyLe_iff x y).mpr hle))

lemma insertDesc_perm (x : Scored) (l : List Scored) :
    (insertDesc x l).Perm (x :: l) := by
  induction l with
  | nil => exact List.Perm.refl _
  | cons y ys ih =>
    unfold insertDesc
    by_cases h : keyLe x y = true
    · rw [if_pos h]
      exact List.Perm.trans (List.Perm.cons y ih) (List.Perm.swap x y ys)
    · rw [if_neg h]

lemma mem_insertDesc {z x : Scored} {l : List Scored} :
    z ∈ insertDesc x l ↔ z = x ∨ z ∈ l := by
  rw [(insertDesc_perm x l).mem_iff, List.mem_cons]

lemma insertDesc_sorted (x : Scored) (l : List Scored)
    (h : l.Pairwise (fun a b => scoreR b ≤ scoreR a)) :
    (insertDesc x l).Pairwise (fun a b => scoreR b ≤ scoreR a) := by
  induction l with
  | nil => simp [insertDesc]
  | cons y ys ih =>
    rw [List.pairwise_cons] at h
    obtain ⟨hy, hys⟩ := h
    unfold insertDesc
    by_cases hxy : keyLe x y = true
    · rw [if_pos hxy, List.pairwise_cons]
      refine ⟨?_, ih hys⟩
      intro z hz
      rcases mem_insertDesc.mp hz with rfl | hz2
      · exact (keyLe_iff z y).mp hxy
      · exact hy z hz2
    · rw [if_neg hxy]
      have hlt := not_keyLe_lt hxy
      rw [List.pairwise_cons]
      refine ⟨?_, List.pairwise_cons.mpr ⟨hy, hys⟩⟩
      intro z hz
      rcases List.mem_cons.mp hz with rfl | hz2
      · exact hlt.le
      · exact (hy z hz2).trans hlt.le

/-- Inserting into a descending-sorted list appends the new element at the end
of its equal-score class and leaves every class otherwise untouched: the heart
of stability. -/
lemma filter_insertDesc (x c : Scored) (l : List Scored)
    (hl : l.Pairwise (fun a b => scoreR b ≤ scoreR a)) :
    (insertDesc x l).filter (fun y => keyEquiv y c) =
      if keyEquiv x c then (l.filter (fun y => keyEquiv y c)) ++ [x]
      else l.filter (fun y => keyEquiv y c) := by
  induction l with
  | nil =>
    unfold insertDesc
    by_cases h : keyEquiv x c = true <;> simp [h]
  | cons y ys ih =>
    rw [List.pairwise_cons] at hl
    obtain ⟨hy, hys⟩ := hl
    unfold insertDesc
    by_cases hxy : keyLe x y = true
    · rw [if_pos hxy, List.filter_cons, List.filter_cons, ih hys]
      by_cases hyc : keyEquiv y c = true
      · by_cases hxc : keyEquiv x c = true <;> simp [hyc, hxc]
      · by_cases hxc : keyEquiv x c = true <;> simp [hyc, hxc]
    · rw [if_neg hxy]
      have hlt := not_keyLe_lt hxy
      rw [List.filter_cons]
      by_cases hxc : keyEquiv x c = true
      · rw [if_pos hxc, if_pos hxc]
        have hnil : (y :: ys).filter (fun z => keyEquiv z c) = [] := by
          rw [List.filter_eq_nil_iff]
          intro z hz
          have hzy : scoreR z ≤ scoreR y := by
            rcases List.mem_cons.mp hz with rfl | hz2
            · exact le_refl _
            · exact hy z hz2
          intro hzc
          have h1 : scoreR z = scoreR c := (keyEquiv_iff z c).mp hzc
          have h2 : scoreR x = scoreR c := (keyEquiv_iff x c).mp hxc
          have : scoreR x ≤ scoreR y := by rw [h2, ← h1]; exact hzy
          exact absurd this (not_le_of_lt hlt)
        rw [hnil]
        simp
      · rw [if_neg hxc, if_neg hxc]

lemma sortDesc_aux (l : List Scored) :
    ∀ acc : List Scored, acc.Pairwise (fun a b => scoreR b ≤ scoreR a) →
      (l.foldl (fun a x => insertDesc x a) acc).Pairwise
          (fun a b => scoreR b ≤ scoreR a) ∧
      (l.foldl (fun a x => insertDesc x a) acc).Perm (acc ++ l) ∧
      ∀ c, (l.foldl (fun a x => insertDesc x a) acc).filter
            (fun y => keyEquiv y c) =
          (acc.filter (fun y => keyEquiv y c)) ++
            (l.filter (fun y => keyEquiv y c)) := by
  induction l with
  | nil =>
    intro acc hacc
    refine ⟨hacc, by simp, fun c => by simp⟩
  | cons x xs ih =>
    intro acc hacc
    rw [List.foldl_cons]
    obtain ⟨hsort, hperm, hfil⟩ := ih (insertDesc x acc) (insertDesc_sorted x acc hacc)
    refine ⟨hsort, ?_, ?_⟩
    · exact hperm.trans
        (((insertDesc_perm x acc).append_right xs).trans List.perm_middle.symm)
    · intro c
      rw [hfil c, filter_insertDesc x c acc hacc, List.filter_cons]
      by_cases hxc : keyEquiv x c = true
      · rw [if_pos hxc, if_pos hxc]
        simp
      · rw [if_neg hxc, if_neg hxc]

/-- `sortDesc` is a permutation, descending in score, and stable: each
equal-score class keeps its original order. -/
lemma sortDesc_spec (l : List Scored) :
    (sortDesc l).Pairwise (fun a b => scoreR b ≤ scoreR a) ∧
    (sortDesc l).Perm l ∧
    ∀ c, (sortDesc l).filter (fun y => keyEquiv y c) =
      l.filter (fun y => keyEquiv y c) := by
  obtain ⟨h1, h2, h3⟩ := sortDesc_aux l [] List.Pairwise.nil
  exact ⟨h1, by simpa using h2, fun c => by simpa using h3 c⟩

/-- Inversion of a successful `getRecommendations` run. -/
lemma getRecommendations_ok {movies : List Movie} {s : String} {liked : Movie}
    {recs : List Scored} (h : getRecommendations movies s = .ok liked recs) :
    (∃ mid, jsParseIntL s.toList = some mid ∧
      movies.find? (fun m => jsStrictEq m.id (some mid)) = some liked) ∧
    recs = (sortDesc (scoredCandidates movies liked)).take 2 := by
  unfold getRecommendations at h
  split at h
  · exact absurd h (by simp)
  next mid hp =>
    split at h
    · exact absurd h (by simp)
    next lk hf =>
      rw [RecResult.ok.injEq] at h
      obtain ⟨h1, h2⟩ := h
      subst h1
      exact ⟨⟨mid, hp, hf⟩, h2.symm⟩

/-- Claim C5: a successful recommendation list never contains the reference
movie — every recommended entry's movie id differs from the reference id
(`candidateMovies` filters on `movie.id !== likedMovie.id`). -/
theorem recs_exclude_reference (movies : List Movie) (s : String)
    (liked : Movie) (recs : List Scored)
    (h : getRecommendations movies s = .ok liked recs) :
    ∀ x ∈ recs, x.movie.id ≠ liked.id := by
  obtain ⟨⟨mid, hp, hf⟩, hrecs⟩ := getRecommendations_ok h
  intro x hx
  have hx2 : x ∈ sortDesc (scoredCandidates movies liked) :=
    List.mem_of_mem_take (hrecs ▸ hx)
  have hx3 : x ∈ scoredCandidates movies liked :=
    ((sortDesc_spec (scoredCandidates movies liked)).2.1).mem_iff.mp hx2
  unfold scoredCandidates at hx3
  obtain ⟨m, hm, hxm⟩ := List.mem_map.mp hx3
  have hmf : ¬ jsStrictEq m.id liked.id = true := by
    simpa using (List.mem_filter.mp hm).2
  have hlid := List.find?_some hf
  subst hxm
  intro heq
  have heq2 : m.id = liked.id := heq
  cases hl : liked.id with
  | none =>
    rw [hl] at hlid
    cases hlid
  | some y =>
    apply hmf
    rw [heq2, hl]
    unfold jsStrictEq
    simp

/-- Witness for C5 on a concrete three-movie collection. -/
theorem recs_exclude_reference_witness :
    (⟨⟨some 2, "B", some ["x"]⟩, 1, 2⟩ : Scored).movie.id ≠ exLiked.id :=
  recs_exclude_reference exMovies "1" exLiked exRecs (by decide)
    ⟨⟨some 2, "B", some ["x"]⟩, 1, 2⟩ (by decide)

/-- Claim C6: a successful recommendation list is the 2-element truncation of a
reordering of the scored candidate pool that is descending in similarity
score and stable — each class of equal-score candidates keeps its original
relative order (ties in the comparator `b.score - a.score` are exactly score
equality, decided by `keyEquiv`) — so its length is `min 2 (number of
candidates)`. -/
theorem recs_sorted_stable_top2 (movies : List Movie) (s : String)
    (liked : Movie) (recs : List Scored)
    (h : getRecommendations movies s = .ok liked recs) :
    ∃ full : List Scored,
      recs = full.take 2 ∧
      full.Perm (scoredCandidates movies liked) ∧
      full.Pairwise (fun a b => scoreR b ≤ scoreR a) ∧
      (∀ c, full.filter (fun y => keyEquiv y c) =
        (scoredCandidates movies liked).filter (fun y => keyEquiv y c)) ∧
      (∀ a b : Scored, keyEquiv a b = true ↔ scoreR a = scoreR b) ∧
      recs.length = min 2 (scoredCandidates movies liked).length := by
  obtain ⟨-, hrecs⟩ := getRecommendations_ok h
  obtain ⟨hsort, hperm, hfil⟩ := sortDesc_spec (scoredCandidates movies liked)
  refine ⟨sortDesc (scoredCandidates movies liked),
    hrecs, hperm, hsort, hfil, keyEquiv_iff, ?_⟩
  rw [hrecs, List.length_take, hperm.length_eq]

/-- Witness for C6 on the same concrete collection. -/
theorem recs_sorted_stable_top2_witness :
    ∃ full : List Scored,
      exRecs = full.take 2 ∧
      full.Perm (scoredCandidates exMovies exLiked) ∧
      full.Pairwise (fun a b => scoreR b ≤ scoreR a) ∧
      (∀ c, full.filter (fun y => keyEquiv y c) =
        (scoredCandidates exMovies exLiked).filter (fun y => keyEquiv y c)) ∧
      (∀ a b : Scored, keyEquiv a b = true ↔ scoreR a = scoreR b) ∧
      exRecs.length = min 2 (scoredCandidates exMovies exLiked).length :=
  recs_sorted_stable_top2 exMovies "1" exLiked exRecs (by decide)

/-- Claim C10: every movie the data loader produces carries `id` and `title`
only — its `genres` property is absent (`none`) and its genre-indicator set
is empty — so in every recommender run over loader-produced movies every
scored candidate's similarity score is 0. -/
theorem loader_movies_no_genres (text : String) :
    (∀ m ∈ (parseItemData text).1, m.genres = none ∧ genreFinset m = ∅) ∧
    (∀ s liked recs,
      getRecommendations (parseItemData text).1 s = .ok liked recs →
      ∀ x ∈ scoredCandidates (parseItemData text).1 liked, scoreR x = 0) := by
  have hmv : ∀ m ∈ (parseItemData text).1, m.genres = none := by
    intro m hm
    rw [parseItemData_eq] at hm
    obtain ⟨p, -, hp⟩ := List.mem_map.mp hm
    rw [← hp]
  refine ⟨fun m hm => ⟨hmv m hm, ?_⟩, ?_⟩
  · unfold genreFinset
    rw [hmv m hm]
    rfl
  · intro s liked recs h x hx
    obtain ⟨⟨mid, hp, hf⟩, -⟩ := getRecommendations_ok h
    have hliked : liked ∈ (parseItemData text).1 := List.mem_of_find?_eq_some hf
    have hempty : genreFinset liked = ∅ := by
      unfold genreFinset
      rw [hmv liked hliked]
      rfl
    unfold scoredCandidates at hx
    obtain ⟨m, -, hxm⟩ := List.mem_map.mp hx
    rw [← hxm]
    apply scoreR_of_nProd_zero
    unfold scoreOf
    simp [hempty]

/-- Witness for C10 on a concrete loaded text. -/
theorem loader_movies_no_genres_witness :
    scoreR ⟨⟨some 2, "B", none⟩, 0, 0⟩ = 0 :=
  (loader_movies_no_genres "1|A\n2|B").2 "1" ⟨some 1, "A", none⟩
    [⟨⟨some 2, "B", none⟩, 0, 0⟩] (by decide)
    ⟨⟨some 2, "B", none⟩, 0, 0⟩ (by decide)

end Rec2
